import Mathlib

/-!
Verification of the RESP (Redis serialization protocol) decoder exercises
from the `unit-testing` workshop crate.

The main buffer-based decoder lives in
`src/bin/19_exercise1_02_enum/main.rs`; an earlier slice-returning
iteration lives in `src/bin/19_exercise1/main.rs`, and a streaming
adapter over a blocking byte source in
`src/bin/20_redis_client_05_resp_bulk_string/main.rs`.

Byte buffers are modelled as `List Nat` (each element a byte value);
Rust's `usize`/`isize` arithmetic is modelled over `Nat`/`Int` with the
word size made explicit (the crate targets a 64-bit platform).  Rust
panics (arithmetic overflow in debug builds, out-of-bounds slicing) are
modelled as an explicit `panicked` outcome, so "the decoder never
panics" is a provable — or refutable — statement about the model.
-/

namespace Resp

/-- 64-bit word, `2^64` (= `usize::MAX + 1` on the target platform). -/
def USIZE_SIZE : Nat := 18446744073709551616

/-- `isize::MIN`, i.e. `-2^63`, on the target platform. -/
def ISIZE_MIN : Int := -9223372036854775808

/-- `isize::MAX`, i.e. `2^63 - 1`, on the target platform. -/
def ISIZE_MAX : Int := 9223372036854775807

/-- `const NEWLINE: &[u8] = b"\r\n";` -/
def NEWLINE : List Nat := [13, 10]

/-- The `RespError` enum of `19_exercise1_02_enum/main.rs`. -/
inductive RespError where
  | MissingLength
  | InvalidLength
  | InvalidData
  | MissingEndOfLine
  | NotEnoughData (required_len actual_len : Nat)
deriving DecidableEq, Repr

/-- The `RedisValue` enum of `19_exercise1_02_enum/main.rs`; the borrowed
slices are modelled as the byte lists they denote. -/
inductive RedisValue where
  | SimpleString (data : List Nat)
  | BulkString (data : List Nat)
  | Null
deriving DecidableEq, Repr

/-- Outcome of running a decoder call: `Ok`, `Err`, or a Rust panic
(arithmetic overflow in a debug build, or an out-of-bounds slice). -/
inductive PResult where
  | ok (v : RedisValue)
  | err (e : RespError)
  | panicked
deriving DecidableEq, Repr

/-- `haystack.windows(needle.len()).position(|w| w == needle)`:
index of the first window of `haystack` equal to `needle`.  A window at
position `i` exists iff `i + needle.len() ≤ haystack.len()`; since
`take needle.length` of a shorter suffix can never equal `needle`
(lengths differ), the equality test itself enforces that bound.
(Rust's `windows(0)` panics; the only caller passes the two-byte
`NEWLINE`, so the `needle = []` behaviour is never exercised.) -/
def find_subsequence : List Nat → List Nat → Option Nat
  | [], needle => if needle.isEmpty then some 0 else none
  | x :: t, needle =>
    if (x :: t).take needle.length = needle then some 0
    else (find_subsequence t needle).map (· + 1)

/-- `split_line` of `19_exercise1_02_enum/main.rs`: split at the first
`\r\n`, returning `(line, rest)`, or `(none, data)` when absent. -/
def split_line (data : List Nat) : Option (List Nat) × List Nat :=
  match find_subsequence data NEWLINE with
  | some i => (some (data.take i), data.drop (i + NEWLINE.length))
  | none => (none, data)

/-- `48 ≤ b ≤ 57`: the byte is an ASCII decimal digit. -/
def isDigitByte (b : Nat) : Bool := 48 ≤ b && b ≤ 57

/-- Value of a digit string, most significant first (the accumulation
loop of Rust's integer `FromStr`). -/
def digitsToNat (l : List Nat) : Nat :=
  l.foldl (fun acc b => acc * 10 + (b - 48)) 0

/-- Digit-and-range step of Rust's signed-integer `FromStr` after the
sign has been consumed: one or more ASCII digits whose value (negated
when `neg`) fits in `isize`. -/
def parseIntCore (neg : Bool) (ds : List Nat) : Option Int :=
  if ds.isEmpty || !(ds.all isDigitByte) then none
  else
    let v : Int := if neg then -(digitsToNat ds : Int) else (digitsToNat ds : Int)
    if ISIZE_MIN ≤ v && v ≤ ISIZE_MAX then some v else none

/-- `str::from_utf8(bytes)` followed by `parse::<isize>()`, with both
failure modes merged (the caller maps each to the same error).
Rust's signed-integer grammar: an optional `+`/`-` sign, then one or
more ASCII digits, and the value must fit in `isize`.  Bytes that are
not ASCII digits — including every byte of a non-UTF-8 or multi-byte
sequence — fail the digit test, so merging the UTF-8 check into the
parse is faithful. -/
def parseIsize (bytes : List Nat) : Option Int :=
  match bytes with
  | [] => none
  | b :: rest =>
    if b = 43 then parseIntCore false rest
    else if b = 45 then parseIntCore true rest
    else parseIntCore false (b :: rest)

/-- Digit-and-range step of Rust's unsigned-integer `FromStr`: one or
more ASCII digits whose value fits in `usize`. -/
def parseUsizeCore (ds : List Nat) : Option Nat :=
  if ds.isEmpty || !(ds.all isDigitByte) then none
  else
    let n := digitsToNat ds
    if n < USIZE_SIZE then some n else none

/-- `str::from_utf8(bytes)` followed by `parse::<usize>()` (used by the
`19_exercise1` iteration and the streaming adapter): an optional `+`
sign — unsigned parsing rejects `-` outright — then one or more ASCII
digits, value within `usize`. -/
def parseUsize (bytes : List Nat) : Option Nat :=
  match bytes with
  | [] => none
  | b :: rest =>
    if b = 43 then parseUsizeCore rest
    else parseUsizeCore (b :: rest)

/-- `parse_simple_string` of `19_exercise1_02_enum/main.rs`. -/
def parse_simple_string (data : List Nat) : PResult :=
  match split_line data with
  | (some line, _) => .ok (.SimpleString line)
  | (none, _) => .err .MissingEndOfLine

/-- `parse_bulk_string` of `19_exercise1_02_enum/main.rs`.

The Rust code parses the length line as `isize`, early-returns `Null`
on `-1`, and then does `length as usize` — a two's-complement
reinterpretation, modelled as `length % 2^64`.  The subsequent
`length + NEWLINE.len()` is checked `usize` addition in a debug build
(the workshop runs `cargo test`), so an overflowing sum is a panic;
the final `&data[..length]` panics when `length > data.len()` (that
guard is provably unreachable once `required_len` fits, but it is kept
to mirror the slice's bound check). -/
def parse_bulk_string (data : List Nat) : PResult :=
  match split_line data with
  | (none, _) => .err .MissingLength
  | (some lengthLine, rest) =>
    match parseIsize lengthLine with
    | none => .err .InvalidLength
    | some length =>
      if length = -1 then .ok .Null
      else
        let lengthU : Nat := (length % (USIZE_SIZE : Int)).toNat
        if USIZE_SIZE ≤ lengthU + NEWLINE.length then .panicked
        else
          let required_len := lengthU + NEWLINE.length
          let actual_len := rest.length
          if actual_len < required_len then
            .err (.NotEnoughData required_len actual_len)
          else
            if rest.length < lengthU then .panicked
            else .ok (.BulkString (rest.take lengthU))

/-- `resp_parse` of `19_exercise1_02_enum/main.rs`: dispatch on the
leading tag byte (`+` = 43, `$` = 36). -/
def resp_parse (data : List Nat) : PResult :=
  match data with
  | [] => .err .InvalidData
  | b :: rest =>
    if b = 43 then parse_simple_string rest
    else if b = 36 then parse_bulk_string rest
    else .err .InvalidData

/-! ### The first iteration (`19_exercise1/main.rs`)

Same framing, but: the length is parsed with `parse::<usize>()` (no
sign, no `-1` sentinel, no `Null`), UTF-8/parse failures are wrapped in
a `Boxed` variant rather than `InvalidLength`, the missing simple-string
terminator produces a message-string error, and the success value is the
bare payload slice.  Its `split_line` uses `twoway::find_bytes`, whose
contract is likewise the index of the first occurrence.  The unchecked
`length + 2` can overflow `usize` only for `length ≥ 2^64 - 2`
(a debug-build panic), which the model records. -/

/-- Result of `19_exercise1`'s `resp_parse`.  `errBoxed` stands for the
`Boxed` variant wrapping a UTF-8 or integer-parse failure; `errString`
for the `String` variant carrying the missing-end-of-line message. -/
inductive V1Result where
  | ok (data : List Nat)
  | errNotEnoughData (expected found : Nat)
  | errMissingLength
  | errInvalidData
  | errBoxed
  | errString
  | panicked
deriving DecidableEq, Repr

/-- `resp_parse` of `19_exercise1/main.rs`. -/
def resp_parse_v1 (data : List Nat) : V1Result :=
  match data with
  | [] => .errInvalidData
  | b :: rest =>
    if b = 43 then
      match split_line rest with
      | (some line, _) => .ok line
      | (none, _) => .errString
    else if b = 36 then
      match split_line rest with
      | (none, _) => .errMissingLength
      | (some lengthLine, rest) =>
        match parseUsize lengthLine with
        | none => .errBoxed
        | some length =>
          if USIZE_SIZE ≤ length + 2 then .panicked
          else if rest.length < length + 2 then
            .errNotEnoughData (length + 2) rest.length
          else
            if rest.length < length then .panicked
            else .ok (rest.take length)
    else .errInvalidData

/-! ### The streaming adapter (`20_redis_client_05_resp_bulk_string/main.rs`)

The adapter consumes a blocking byte source.  The model takes the full
byte sequence the source will ever produce (`List Nat`) and threads an
explicit cursor by consuming prefixes; exhausting the list is
end-of-stream.  All errors are `Box<dyn Error>` in the Rust code; the
model keeps the I/O-error / decode-error distinction that the error's
dynamic type carries (`io::Error` vs `ParseIntError`/`FromUtf8Error`). -/

mutual

/-- Standard UTF-8 well-formedness (as enforced by Rust's
`str::from_utf8` / `String::from_utf8`): the first byte of each
sequence selects its length and the admissible range of the second
byte — excluding overlong encodings, surrogates, and anything above
`U+10FFFF` — and the remaining continuation bytes lie in
`0x80..=0xBF`. -/
def validUtf8 : List Nat → Bool
  | [] => true
  | b :: rest =>
    if b ≤ 0x7F then validUtf8 rest
    else if 0xC2 ≤ b && b ≤ 0xDF then contCheck rest 0x80 0xBF 0
    else if b = 0xE0 then contCheck rest 0xA0 0xBF 1
    else if (0xE1 ≤ b && b ≤ 0xEC) || b = 0xEE || b = 0xEF then
      contCheck rest 0x80 0xBF 1
    else if b = 0xED then contCheck rest 0x80 0x9F 1
    else if b = 0xF0 then contCheck rest 0x90 0xBF 2
    else if 0xF1 ≤ b && b ≤ 0xF3 then contCheck rest 0x80 0xBF 2
    else if b = 0xF4 then contCheck rest 0x80 0x8F 2
    else false

/-- `contCheck rest lo hi k` consumes one byte in `lo..=hi` and then
`k` plain continuation bytes, resuming `validUtf8` after. -/
def contCheck : List Nat → Nat → Nat → Nat → Bool
  | [], _, _, _ => false
  | c :: r, lo, hi, k =>
    if lo ≤ c && c ≤ hi then
      match k with
      | 0 => validUtf8 r
      | k2 + 1 => contCheck r 0x80 0xBF k2
    else false

end

/-- Split the source at the first `\n` (= 10), inclusive: the byte span
`BufRead::read_line` consumes.  If no `\n` arrives before end-of-stream
the whole remainder is consumed. -/
def takeLine : List Nat → List Nat × List Nat
  | [] => ([], [])
  | b :: rest =>
    if b = 10 then ([b], rest)
    else
      let p := takeLine rest
      (b :: p.1, p.2)

/-- ASCII whitespace byte, as trimmed from a digit line by `str::trim`
(`str::trim` also strips non-ASCII Unicode whitespace, which cannot
occur in a line that parses as an integer and is therefore irrelevant
to every theorem below). -/
def isWsByte (b : Nat) : Bool :=
  b = 32 || b = 9 || b = 10 || b = 11 || b = 12 || b = 13

/-- `str::trim` on a byte string: drop leading and trailing whitespace. -/
def trimBytes (l : List Nat) : List Nat :=
  (((l.dropWhile isWsByte).reverse).dropWhile isWsByte).reverse

/-- `str::trim_end` on a byte string: drop trailing whitespace only. -/
def trimEndBytes (l : List Nat) : List Nat :=
  ((l.reverse).dropWhile isWsByte).reverse

/-- Outcome of one streaming decode.  `ok` carries the returned owned
`String` as its byte sequence; `ioError` is an `io::Error` surfaced by
`read_exact`/`read_line` (end-of-stream before the requested bytes, or
a non-UTF-8 line); `decodeError` is a `ParseIntError` or
`FromUtf8Error`, including the format error for an unknown tag byte. -/
inductive StreamResult where
  | ok (s : List Nat)
  | ioError
  | decodeError
deriving DecidableEq, Repr

/-- `BufRead::read_line`: consume up to and including the first `\n`
(or everything, at end-of-stream — zero bytes read at EOF is `Ok(0)`,
not an error) and require the bytes read to be valid UTF-8. -/
def read_line (src : List Nat) : Option (List Nat × List Nat) :=
  let p := takeLine src
  if validUtf8 p.1 then some p else none

/-- `parse_simple_string` of `20_redis_client_05_resp_bulk_string/main.rs`:
read one line, trim its end, return it as an owned string. -/
def stream_parse_simple_string (src : List Nat) : StreamResult :=
  match read_line src with
  | none => .ioError
  | some (line, _) => .ok (trimEndBytes line)

/-- `parse_bulk_string` of `20_redis_client_05_resp_bulk_string/main.rs`:
read the length line, `trim().parse()` it (`usize`, inferred from
`vec![0; data_length]`), `read_exact` that many payload bytes,
`read_exact` and discard 2 terminator bytes, then validate the payload
as UTF-8 (`String::from_utf8`; a failure is surfaced, not
lossy-converted). -/
def stream_parse_bulk_string (src : List Nat) : StreamResult :=
  match read_line src with
  | none => .ioError
  | some (len_buf, src1) =>
    match parseUsize (trimBytes len_buf) with
    | none => .decodeError
    | some data_length =>
      if src1.length < data_length then .ioError
      else
        let data := src1.take data_length
        let src2 := src1.drop data_length
        if src2.length < 2 then .ioError
        else if validUtf8 data then .ok data else .decodeError

/-- `resp_parse` of `20_redis_client_05_resp_bulk_string/main.rs`:
`read_exact` one tag byte (end-of-stream is an I/O error), then
dispatch; an unknown tag is the `format!("Illegal RESP: …")` error. -/
def resp_parse_stream (src : List Nat) : StreamResult :=
  match src with
  | [] => .ioError
  | b :: rest =>
    if b = 43 then stream_parse_simple_string rest
    else if b = 36 then stream_parse_bulk_string rest
    else .decodeError

/-! ## Helper lemmas -/

theorem parseIntCore_range (neg : Bool) (ds : List Nat) (n : Int)
    (h : parseIntCore neg ds = some n) : ISIZE_MIN ≤ n ∧ n ≤ ISIZE_MAX := by
  unfold parseIntCore at h
  split at h
  · simp at h
  · simp only [Option.ite_none_right_eq_some, Option.some.injEq, Bool.and_eq_true,
      decide_eq_true_eq] at h
    obtain ⟨⟨h1, h2⟩, h3⟩ := h
    subst h3
    exact ⟨h1, h2⟩

theorem parseIsize_range (l : List Nat) (n : Int) (h : parseIsize l = some n) :
    ISIZE_MIN ≤ n ∧ n ≤ ISIZE_MAX := by
  cases l with
  | nil => simp [parseIsize] at h
  | cons b rest =>
    simp only [parseIsize] at h
    by_cases hb : b = 43
    · rw [if_pos hb] at h; exact parseIntCore_range _ _ _ h
    · rw [if_neg hb] at h
      by_cases hb2 : b = 45
      · rw [if_pos hb2] at h; exact parseIntCore_range _ _ _ h
      · rw [if_neg hb2] at h; exact parseIntCore_range _ _ _ h

theorem parseIntCore_false_eq (ds : List Nat) (n : Int)
    (h : parseIntCore false ds = some n) :
    0 ≤ n ∧ n = (digitsToNat ds : Int) ∧ parseUsizeCore ds = some n.toNat := by
  unfold parseIntCore at h
  split at h
  · simp at h
  · rename_i hds
    simp only [Bool.false_eq_true, if_false, Option.ite_none_right_eq_some,
      Option.some.injEq, Bool.and_eq_true, decide_eq_true_eq] at h
    obtain ⟨⟨h1, h2⟩, h3⟩ := h
    subst h3
    refine ⟨by positivity, rfl, ?_⟩
    unfold parseUsizeCore
    rw [if_neg hds]
    have hlt : digitsToNat ds < USIZE_SIZE := by
      simp only [ISIZE_MAX] at h2
      unfold USIZE_SIZE
      omega
    rw [if_pos hlt]
    simp

/-- For a length line that does not begin with `-`, a successful
`isize` parse is non-negative and the `usize` parse succeeds with the
same value. -/
theorem parseIsize_nonneg_parseUsize (l : List Nat) (n : Int)
    (h : parseIsize l = some n) (hhead : l.head? ≠ some 45) :
    0 ≤ n ∧ parseUsize l = some n.toNat := by
  cases l with
  | nil => simp [parseIsize] at h
  | cons b rest =>
    simp only [parseIsize] at h
    simp only [List.head?_cons, ne_eq, Option.some.injEq] at hhead
    by_cases hb : b = 43
    · rw [if_pos hb] at h
      have := parseIntCore_false_eq _ _ h
      refine ⟨this.1, ?_⟩
      simp only [parseUsize]
      rw [if_pos hb]
      exact this.2.2
    · rw [if_neg hb, if_neg hhead] at h
      have := parseIntCore_false_eq _ _ h
      refine ⟨this.1, ?_⟩
      simp only [parseUsize]
      rw [if_neg hb]
      exact this.2.2


/-- Characterisation of `find_subsequence` for a nonempty needle:
`some i` exactly when the needle occurs at offset `i` and at no earlier
offset. -/
theorem find_subsequence_some_iff (needle : List Nat) (hne : needle ≠ [])
    (haystack : List Nat) (i : Nat) :
    find_subsequence haystack needle = some i ↔
      ((haystack.drop i).take needle.length = needle ∧
       ∀ j, j < i → (haystack.drop j).take needle.length ≠ needle) := by
  induction haystack generalizing i with
  | nil =>
    rw [show find_subsequence [] needle = none by
      simp [find_subsequence, List.isEmpty_iff, hne]]
    simp only [List.drop_nil, List.take_nil]
    constructor
    · intro h; exact absurd h (by simp)
    · rintro ⟨h1, _⟩; exact absurd h1.symm hne
  | cons x t ih =>
    by_cases hx : (x :: t).take needle.length = needle
    · rw [show find_subsequence (x :: t) needle = some 0 by
        simp [find_subsequence, hx]]
      constructor
      · intro h
        injection h with h
        subst h
        exact ⟨hx, fun j hj => absurd hj (Nat.not_lt_zero j)⟩
      · rintro ⟨h1, h2⟩
        cases i with
        | zero => rfl
        | succ i2 => exact absurd hx (h2 0 (Nat.succ_pos i2))
    · rw [show find_subsequence (x :: t) needle
          = (find_subsequence t needle).map (· + 1) by
        simp [find_subsequence, hx]]
      cases i with
      | zero =>
        simp only [List.drop_zero]
        constructor
        · intro h
          rw [Option.map_eq_some'] at h
          obtain ⟨a, _, ha⟩ := h
          omega
        · rintro ⟨h1, _⟩
          exact absurd h1 hx
      | succ i2 =>
        rw [Option.map_eq_some']
        constructor
        · rintro ⟨a, ha, haa⟩
          have haa2 : a = i2 := by omega
          subst haa2
          rw [ih] at ha
          refine ⟨by simpa using ha.1, ?_⟩
          intro j hj
          cases j with
          | zero => simpa using hx
          | succ j2 => simpa using ha.2 j2 (by omega)
        · rintro ⟨h1, h2⟩
          refine ⟨i2, ?_, rfl⟩
          rw [ih]
          refine ⟨by simpa using h1, ?_⟩
          intro j hj
          have := h2 (j + 1) (by omega)
          simpa using this

/-- `find_subsequence` returns `none` exactly when the needle occurs
nowhere. -/
theorem find_subsequence_none_iff (needle : List Nat) (hne : needle ≠ [])
    (haystack : List Nat) :
    find_subsequence haystack needle = none ↔
      ∀ j, (haystack.drop j).take needle.length ≠ needle := by
  classical
  constructor
  · intro h j hj
    have hex : ∃ k, (haystack.drop k).take needle.length = needle := ⟨j, hj⟩
    have hk : (haystack.drop (Nat.find hex)).take needle.length = needle :=
      Nat.find_spec hex
    have hmin : ∀ m, m < Nat.find hex →
        (haystack.drop m).take needle.length ≠ needle :=
      fun m hm => Nat.find_min hex hm
    have hsome : find_subsequence haystack needle = some (Nat.find hex) :=
      (find_subsequence_some_iff needle hne haystack (Nat.find hex)).mpr ⟨hk, hmin⟩
    rw [h] at hsome
    exact absurd hsome (by simp)
  · intro h
    cases hf : find_subsequence haystack needle with
    | none => rfl
    | some i =>
      have := (find_subsequence_some_iff needle hne haystack i).mp hf
      exact absurd this.1 (h i)

/-- When `\r\n` first occurs at offset `i`, `split_line` returns the
bytes before it and the bytes after it. -/
theorem split_line_first (data : List Nat) (i : Nat)
    (h1 : (data.drop i).take 2 = NEWLINE)
    (h2 : ∀ j, j < i → (data.drop j).take 2 ≠ NEWLINE) :
    split_line data = (some (data.take i), data.drop (i + 2)) := by
  have hfind : find_subsequence data NEWLINE = some i :=
    (find_subsequence_some_iff NEWLINE (by simp [NEWLINE]) data i).mpr
      ⟨by simpa [NEWLINE] using h1, fun j hj => by simpa [NEWLINE] using h2 j hj⟩
  unfold split_line
  rw [hfind]
  rfl

/-- When `\r\n` occurs nowhere in `data`, `split_line` returns
`(none, data)`. -/
theorem split_line_none (data : List Nat)
    (h : ∀ j, (data.drop j).take 2 ≠ NEWLINE) :
    split_line data = (none, data) := by
  have hfind : find_subsequence data NEWLINE = none :=
    (find_subsequence_none_iff NEWLINE (by simp [NEWLINE]) data).mpr
      (fun j => by simpa [NEWLINE] using h j)
  unfold split_line
  rw [hfind]

/-- The remainder produced by a successful `split_line` is no longer
than the input. -/
theorem split_line_rest_le (data line rest : List Nat)
    (h : split_line data = (some line, rest)) : rest.length ≤ data.length := by
  unfold split_line at h
  cases hf : find_subsequence data NEWLINE with
  | none => rw [hf] at h; simp at h
  | some i =>
    rw [hf] at h
    simp only [Prod.mk.injEq, Option.some.injEq] at h
    rw [← h.2]
    simp



/-! ## Claims -/

/-- C1: the spec asserts the buffer decoder never panics and never
slices out of bounds on any input.  The code violates this: on
`$-2\r\n` the length line parses to the `isize` `-2`, the `as usize`
cast wraps it to `2^64 - 2`, and the decoder panics — in a debug build
the `length + 2` addition overflows `usize`, in a release build the
subsequent `&data[..length]` slice is out of bounds. -/
theorem C1_panics_on_minus_two : resp_parse [36, 45, 50, 13, 10] = .panicked := by
  rfl

/-- C4: the spec requires negative lengths other than the `-1` sentinel
to fail with `InvalidLength` (and `Null` exactly for `-1`).  The code
honours the `Null` half but not the `InvalidLength` half: on `$-3\r\n`
the wrapped cast makes it report `NotEnoughData` with
`required = 2^64 - 1` instead of `InvalidLength` (and `$-2\r\n`
panics, see C1). -/
theorem C4_negative_length_not_invalid :
    resp_parse [36, 45, 51, 13, 10] = .err (.NotEnoughData (2 ^ 64 - 1) 0) ∧
    resp_parse [36, 45, 51, 13, 10] ≠ .err .InvalidLength ∧
    resp_parse [36, 45, 49, 13, 10] = .ok .Null := by
  refine ⟨by rfl, by decide, by rfl⟩

/-- C5: `resp_parse` inspects byte 0 and routes: `+` (43) to the
simple-string parser, `$` (36) to the bulk-string parser, and any other
leading byte — or an empty buffer — yields `InvalidData`. -/
theorem C5_dispatch (data : List Nat) :
    (data = [] → resp_parse data = .err .InvalidData) ∧
    (∀ rest, data = 43 :: rest → resp_parse data = parse_simple_string rest) ∧
    (∀ rest, data = 36 :: rest → resp_parse data = parse_bulk_string rest) ∧
    (∀ b rest, data = b :: rest → b ≠ 43 → b ≠ 36 →
      resp_parse data = .err .InvalidData) := by
  refine ⟨?_, ?_, ?_, ?_⟩
  · rintro rfl; rfl
  · rintro rest rfl; rfl
  · rintro rest rfl; rfl
  · rintro b rest rfl h43 h36
    simp only [resp_parse]
    rw [if_neg h43, if_neg h36]

/-- Witness for C5 at the concrete unrecognized-tag input `"Z"`. -/
theorem C5_dispatch_witness : resp_parse [90] = .err .InvalidData :=
  (C5_dispatch [90]).2.2.2 90 [] rfl (by decide) (by decide)

/-- C9: the buffer decoder is deterministic — equal input buffers give
equal results (the embedding is a pure function of the buffer, matching
the Rust code, which reads no state besides its argument). -/
theorem C9_deterministic (d1 d2 : List Nat) (h : d1 = d2) :
    resp_parse d1 = resp_parse d2 := by
  rw [h]

/-- Witness for C9 at a concrete input. -/
theorem C9_deterministic_witness :
    resp_parse [43, 104, 105, 13, 10] = resp_parse [43, 104, 105, 13, 10] :=
  C9_deterministic [43, 104, 105, 13, 10] [43, 104, 105, 13, 10] rfl

/-- C6: `split_line` splits at the first `\r\n` occurrence: when the
terminator first occurs at offset `i` the result is
`(some (bytes before i), bytes after i + 2)`; when it occurs nowhere
the result is `(none, data)` unchanged; the empty slice is the
not-found case. -/
theorem C6_split_line (data : List Nat) :
    (∀ i, (data.drop i).take 2 = NEWLINE →
      (∀ j, j < i → (data.drop j).take 2 ≠ NEWLINE) →
      split_line data = (some (data.take i), data.drop (i + 2))) ∧
    ((∀ j, (data.drop j).take 2 ≠ NEWLINE) → split_line data = (none, data)) ∧
    (data = [] → split_line data = (none, data)) := by
  refine ⟨fun i h1 h2 => split_line_first data i h1 h2,
    fun h => split_line_none data h, ?_⟩
  rintro rfl
  rfl

/-- Witness for C6 on `"a\r\nb"`: the line is `"a"`, the rest `"b"`. -/
theorem C6_split_line_witness : split_line [97, 13, 10, 98] = (some [97], [98]) := by
  have h := (C6_split_line [97, 13, 10, 98]).1 1 (by decide)
    (fun j hj => by
      have hj0 : j = 0 := by omega
      subst hj0
      decide)
  simpa using h

/-- C7: for inputs beginning with `+`, the decoder returns
`SimpleString` holding exactly the bytes before the first `\r\n`
(later bytes are ignored), and fails with `MissingEndOfLine` when no
terminator is present. -/
theorem C7_simple_string (data : List Nat) :
    (∀ i, (data.drop i).take 2 = NEWLINE →
      (∀ j, j < i → (data.drop j).take 2 ≠ NEWLINE) →
      resp_parse (43 :: data) = .ok (.SimpleString (data.take i))) ∧
    ((∀ j, (data.drop j).take 2 ≠ NEWLINE) →
      resp_parse (43 :: data) = .err .MissingEndOfLine) := by
  constructor
  · intro i h1 h2
    have hs := split_line_first data i h1 h2
    simp only [resp_parse, if_pos rfl, if_true, parse_simple_string, hs]
  · intro h
    have hs := split_line_none data h
    simp only [resp_parse, if_pos rfl, if_true, parse_simple_string, hs]

/-- Witness for C7 on `"+hi\r\nx"`: only the first frame is decoded. -/
theorem C7_simple_string_witness :
    resp_parse [43, 104, 105, 13, 10, 120] = .ok (.SimpleString [104, 105]) := by
  have h := (C7_simple_string [104, 105, 13, 10, 120]).1 2 (by decide)
    (fun j hj => by interval_cases j <;> decide)
  simpa using h



/-- Complete unfolding of the bulk-string parser once the length line
has been found and parsed: `Null` for the `-1` sentinel, a panic for
`-2` (the wrapped cast makes `length + 2` overflow `usize`), otherwise
the `NotEnoughData` guard and the payload slice, both driven by the
wrapped cast `n % 2^64`. -/
theorem parse_bulk_string_found (data line rest : List Nat) (n : Int)
    (hsplit : split_line data = (some line, rest))
    (hparse : parseIsize line = some n) :
    parse_bulk_string data =
      if n = -1 then .ok .Null
      else if n = -2 then .panicked
      else if rest.length < (n % (USIZE_SIZE : Int)).toNat + 2 then
        .err (.NotEnoughData ((n % (USIZE_SIZE : Int)).toNat + 2) rest.length)
      else .ok (.BulkString (rest.take ((n % (USIZE_SIZE : Int)).toNat))) := by
  have hrange := parseIsize_range _ _ hparse
  simp only [ISIZE_MIN, ISIZE_MAX] at hrange
  have hnl : NEWLINE.length = 2 := rfl
  simp only [parse_bulk_string, hsplit, hparse, hnl]
  by_cases h1 : n = -1
  · rw [if_pos h1, if_pos h1]
  · rw [if_neg h1, if_neg h1]
    by_cases h2 : n = -2
    · subst h2
      rw [if_pos rfl]
      have hov : USIZE_SIZE ≤ ((-2 : Int) % (USIZE_SIZE : Int)).toNat + 2 := by
        simp only [USIZE_SIZE]
        omega
      rw [if_pos hov]
    · rw [if_neg h2]
      have hov : ¬ (USIZE_SIZE ≤ (n % (USIZE_SIZE : Int)).toNat + 2) := by
        simp only [USIZE_SIZE] at *
        omega
      rw [if_neg hov]
      by_cases h3 : rest.length < (n % (USIZE_SIZE : Int)).toNat + 2
      · rw [if_pos h3, if_pos h3]
      · rw [if_neg h3, if_neg h3]
        have hsl : ¬ (rest.length < (n % (USIZE_SIZE : Int)).toNat) := by omega
        rw [if_neg hsl]

/-- The wrapped cast is the identity on a non-negative parsed length. -/
theorem emod_toNat_of_nonneg (n : Int) (hn : 0 ≤ n) (hmax : n ≤ ISIZE_MAX) :
    (n % (USIZE_SIZE : Int)).toNat = n.toNat := by
  simp only [ISIZE_MAX] at hmax
  simp only [USIZE_SIZE]
  omega


/-- What a successful bulk-string parse implies: either the `-1`
sentinel produced `Null`, or a found length line parsed to some
`n ∉ {-1, -2}`, enough bytes remained, and the payload is the first
`(n as usize)` bytes of the remainder. -/
theorem parse_bulk_string_ok_inv (d : List Nat) (v : RedisValue)
    (h : parse_bulk_string d = .ok v) :
    (v = .Null ∧ ∃ line rest, split_line d = (some line, rest) ∧
      parseIsize line = some (-1)) ∨
    (∃ (line rest : List Nat) (n : Int), split_line d = (some line, rest) ∧
      parseIsize line = some n ∧ n ≠ -1 ∧ n ≠ -2 ∧
      (n % (USIZE_SIZE : Int)).toNat + 2 ≤ rest.length ∧
      v = .BulkString (rest.take ((n % (USIZE_SIZE : Int)).toNat))) := by
  rcases hsl : split_line d with ⟨o, rest⟩
  cases o with
  | none =>
    simp only [parse_bulk_string, hsl] at h
    exact PResult.noConfusion h
  | some line =>
    rcases hp : parseIsize line with _ | n
    · simp only [parse_bulk_string, hsl, hp] at h
      exact PResult.noConfusion h
    · rw [parse_bulk_string_found d line rest n hsl hp] at h
      by_cases h1 : n = -1
      · rw [if_pos h1] at h
        subst h1
        left
        exact ⟨by injection h with h; exact h.symm, line, rest, rfl, hp⟩
      · rw [if_neg h1] at h
        by_cases h2 : n = -2
        · rw [if_pos h2] at h
          exact absurd h (by simp)
        · rw [if_neg h2] at h
          by_cases h3 : rest.length < (n % (USIZE_SIZE : Int)).toNat + 2
          · rw [if_pos h3] at h
            exact absurd h (by simp)
          · rw [if_neg h3] at h
            right
            refine ⟨line, rest, n, rfl, hp, h1, h2, by omega, ?_⟩
            injection h with h
            exact h.symm

/-- A simple-string parse yields `SimpleString` or `MissingEndOfLine`,
nothing else. -/
theorem parse_simple_string_cases (d : List Nat) :
    (∃ line rest, split_line d = (some line, rest) ∧
      parse_simple_string d = .ok (.SimpleString line)) ∨
    parse_simple_string d = .err .MissingEndOfLine := by
  rcases hsl : split_line d with ⟨o, rest⟩
  cases o with
  | none => right; simp only [parse_simple_string, hsl]
  | some line => left; exact ⟨line, rest, rfl, by simp only [parse_simple_string, hsl]⟩


/-- C2: a `$` frame whose length line decodes to a non-negative `n`
with at least `n + 2` bytes remaining yields `BulkString` of exactly
the first `n` bytes after the length line; conversely (for buffers of
physically possible slice length, at most `isize::MAX` bytes) every
`BulkString(b)` result has `b.length` equal to the decoded length. -/
theorem C2_bulk_payload_length :
    (∀ (data line rest : List Nat) (n : Int),
      split_line data = (some line, rest) →
      parseIsize line = some n → 0 ≤ n → n.toNat + 2 ≤ rest.length →
      resp_parse (36 :: data) = .ok (.BulkString (rest.take n.toNat)) ∧
        (rest.take n.toNat).length = n.toNat) ∧
    (∀ (data b : List Nat), (data.length : Int) ≤ ISIZE_MAX →
      resp_parse data = .ok (.BulkString b) →
      ∃ (line rest : List Nat) (n : Int),
        split_line data.tail = (some line, rest) ∧ parseIsize line = some n ∧
        0 ≤ n ∧ b.length = n.toNat) := by
  constructor
  · intro data line rest n hsplit hparse hn hlen
    have hrange := parseIsize_range _ _ hparse
    have hU : (n % (USIZE_SIZE : Int)).toNat = n.toNat :=
      emod_toNat_of_nonneg n hn hrange.2
    have hentry : resp_parse (36 :: data) = parse_bulk_string data := by
      simp [resp_parse]
    rw [hentry, parse_bulk_string_found data line rest n hsplit hparse,
      if_neg (by omega : ¬ n = -1), if_neg (by omega : ¬ n = -2), hU,
      if_neg (by omega : ¬ rest.length < n.toNat + 2)]
    refine ⟨rfl, ?_⟩
    rw [List.length_take]
    omega
  · intro data b hlen h
    cases data with
    | nil => exact absurd h (by simp [resp_parse])
    | cons hd tl =>
      simp only [resp_parse] at h
      by_cases h43 : hd = 43
      · rw [if_pos h43] at h
        rcases parse_simple_string_cases tl with ⟨line, rest, _, heq⟩ | heq <;>
          rw [heq] at h <;> simp at h
      · rw [if_neg h43] at h
        by_cases h36 : hd = 36
        · rw [if_pos h36] at h
          rcases parse_bulk_string_ok_inv tl _ h with ⟨hnull, _⟩ | hinv
          · exact absurd hnull (by simp)
          · obtain ⟨line, rest, n, hsl, hp, h1, h2, hle, hb⟩ := hinv
            have hrange := parseIsize_range _ _ hp
            have hrle : rest.length ≤ tl.length := split_line_rest_le tl line rest hsl
            have hnn : 0 ≤ n := by
              by_contra hneg
              push_neg at hneg
              -- a negative n (≠ -1, -2) wraps to at least 2^63,
              -- impossible for a ≤ isize::MAX buffer
              simp only [ISIZE_MIN, ISIZE_MAX, USIZE_SIZE] at hrange hlen hle
              simp only [List.length_cons] at hlen
              omega
            have hU : (n % (USIZE_SIZE : Int)).toNat = n.toNat :=
              emod_toNat_of_nonneg n hnn hrange.2
            rw [hU] at hle
            have hb2 : b = rest.take n.toNat := by
              rw [hU] at hb
              injection hb
            refine ⟨line, rest, n, by simpa using hsl, hp, hnn, ?_⟩
            rw [hb2, List.length_take]
            omega
        · rw [if_neg h36] at h
          exact PResult.noConfusion h


/-- Witness for C2 on `"$3\r\nabc\r\n"`. -/
theorem C2_bulk_payload_length_witness :
    resp_parse [36, 51, 13, 10, 97, 98, 99, 13, 10]
      = .ok (.BulkString [97, 98, 99]) := by
  have h := C2_bulk_payload_length.1 [51, 13, 10, 97, 98, 99, 13, 10]
    [51] [97, 98, 99, 13, 10] 3 (by decide) (by decide) (by decide) (by decide)
  simpa using h.1

/-- C3, counterexample: the claim restricts `NotEnoughData` to
non-negative decoded lengths, but on `"$-4\r\n"` the length line
decodes to `-4 < 0` and the decoder still fails with `NotEnoughData`
(with the wrapped `required = 2^64 - 2`, not `length + 2`). -/
theorem C3_negative_notenoughdata :
    split_line [45, 52, 13, 10] = (some [45, 52], []) ∧
    parseIsize [45, 52] = some (-4) ∧ (-4 : Int) < 0 ∧
    resp_parse [36, 45, 52, 13, 10]
      = .err (.NotEnoughData 18446744073709551614 0) := by
  refine ⟨by decide, by decide, by decide, by rfl⟩

/-- C3, amended: `resp_parse` fails with `NotEnoughData{required,
actual}` iff the input is a `$` frame whose length line decodes to an
integer `n ∉ {-1, -2}` and fewer than `(n as usize) + 2` bytes remain;
then `required = (n % 2^64) + 2` (which is `n + 2` whenever `n ≥ 0`),
`actual` is the number of remaining bytes, and `actual < required`. -/
theorem C3_notenoughdata_iff (input : List Nat) (r a : Nat) :
    resp_parse input = .err (.NotEnoughData r a) ↔
      ∃ (d line rest : List Nat) (n : Int), input = 36 :: d ∧
        split_line d = (some line, rest) ∧ parseIsize line = some n ∧
        n ≠ -1 ∧ n ≠ -2 ∧
        r = (n % (USIZE_SIZE : Int)).toNat + 2 ∧ a = rest.length ∧ a < r ∧
        (0 ≤ n → r = n.toNat + 2) := by
  constructor
  · intro h
    cases input with
    | nil => simp [resp_parse] at h
    | cons hd tl =>
      simp only [resp_parse] at h
      by_cases h43 : hd = 43
      · rw [if_pos h43] at h
        rcases parse_simple_string_cases tl with ⟨line, rest, _, heq⟩ | heq <;>
          rw [heq] at h <;> simp at h
      · rw [if_neg h43] at h
        by_cases h36 : hd = 36
        · rw [if_pos h36] at h
          subst h36
          rcases hsl : split_line tl with ⟨o, rest⟩
          cases o with
          | none =>
            simp only [parse_bulk_string, hsl] at h
            simp at h
          | some line =>
            rcases hp : parseIsize line with _ | n
            · simp only [parse_bulk_string, hsl, hp] at h
              simp at h
            · rw [parse_bulk_string_found tl line rest n hsl hp] at h
              by_cases h1 : n = -1
              · rw [if_pos h1] at h
                exact absurd h (by simp)
              · rw [if_neg h1] at h
                by_cases h2 : n = -2
                · rw [if_pos h2] at h
                  exact absurd h (by simp)
                · rw [if_neg h2] at h
                  by_cases h3 : rest.length < (n % (USIZE_SIZE : Int)).toNat + 2
                  · rw [if_pos h3] at h
                    simp only [PResult.err.injEq, RespError.NotEnoughData.injEq] at h
                    have hrange := parseIsize_range _ _ hp
                    refine ⟨tl, line, rest, n, rfl, hsl, hp, h1, h2,
                      h.1.symm, h.2.symm, by omega, ?_⟩
                    intro hn
                    have hU : (n % (USIZE_SIZE : Int)).toNat = n.toNat :=
                      emod_toNat_of_nonneg n hn hrange.2
                    omega
                  · rw [if_neg h3] at h
                    exact absurd h (by simp)
        · rw [if_neg h36] at h
          simp at h
  · rintro ⟨d, line, rest, n, rfl, hsl, hp, h1, h2, hr, ha, hlt, _⟩
    have hentry : resp_parse (36 :: d) = parse_bulk_string d := by
      simp [resp_parse]
    rw [hentry, parse_bulk_string_found d line rest n hsl hp,
      if_neg h1, if_neg h2, if_pos (by omega : rest.length < (n % (USIZE_SIZE : Int)).toNat + 2)]
    rw [hr, ha]


/-- C10, counterexample: on `"$-0\r\n\r\n"` the enum decoder parses the
length line as the `isize` `-0 = 0` and returns `BulkString("")`, but
the original decoder's `parse::<usize>()` rejects the `-` sign and
fails with its boxed parse error. -/
theorem C10_minus_zero_disagreement :
    resp_parse [36, 45, 48, 13, 10, 13, 10] = .ok (.BulkString []) ∧
    resp_parse_v1 [36, 45, 48, 13, 10, 13, 10] = .errBoxed ∧
    resp_parse_v1 [36, 45, 48, 13, 10, 13, 10] ≠ .ok [] := by
  refine ⟨by rfl, by rfl, by decide⟩

/-- C10, amended: the two iterations agree on successful non-null
decodes whose length line does not begin with a `-` sign: whenever the
enum decoder returns `SimpleString(b)` or `BulkString(b)` and (for `$`
frames) the length line's first byte is not `-`, the original decoder
returns `Ok(b)` with the same bytes.  (A negatively-signed line that
the signed parse still accepts — `"-0"` — is accepted by the enum
decoder but is a parse error for `parse::<usize>()`.) -/
theorem C10_v1_agrees (data b : List Nat)
    (h : resp_parse data = .ok (.SimpleString b) ∨
      resp_parse data = .ok (.BulkString b))
    (hsign : ∀ (d line rest : List Nat), data = 36 :: d →
      split_line d = (some line, rest) → line.head? ≠ some 45) :
    resp_parse_v1 data = .ok b := by
  cases data with
  | nil => simp [resp_parse] at h
  | cons hd tl =>
    simp only [resp_parse] at h
    by_cases h43 : hd = 43
    · rw [if_pos h43] at h
      subst h43
      rcases parse_simple_string_cases tl with ⟨line, rest, hsl, heq⟩ | heq
      · rw [heq] at h
        have hb : line = b := by
          rcases h with h | h
          · injection h with h; injection h
          · injection h with h; exact absurd h (by simp)
        subst hb
        have hv1 : resp_parse_v1 (43 :: tl) = match split_line tl with
          | (some l2, _) => .ok l2
          | (none, _) => .errString := by
          simp [resp_parse_v1]
        rw [hv1]
        simp only [hsl]
      · rw [heq] at h
        simp at h
    · rw [if_neg h43] at h
      by_cases h36 : hd = 36
      · rw [if_pos h36] at h
        subst h36
        have hbulk : parse_bulk_string tl = .ok (.BulkString b) := by
          rcases h with h | h
          · rcases parse_bulk_string_ok_inv tl _ h with ⟨hnull, _⟩ |
              ⟨_, _, _, _, _, _, _, _, hv⟩
            · exact absurd hnull (by simp)
            · exact absurd hv (by simp)
          · exact h
        rcases parse_bulk_string_ok_inv tl _ hbulk with ⟨hnull, _⟩ | hinv
        · exact absurd hnull (by simp)
        · obtain ⟨line, rest, n, hsl, hp, h1, h2, hle, hv⟩ := hinv
          have hhead := hsign tl line rest rfl hsl
          have hnp := parseIsize_nonneg_parseUsize line n hp hhead
          have hrange := parseIsize_range _ _ hp
          have hU : (n % (USIZE_SIZE : Int)).toNat = n.toNat :=
            emod_toNat_of_nonneg n hnp.1 hrange.2
          rw [hU] at hle hv
          have hb2 : b = rest.take n.toNat := by injection hv
          simp only [ISIZE_MIN, ISIZE_MAX] at hrange
          have hv1 : resp_parse_v1 (36 :: tl) = match split_line tl with
            | (none, _) => .errMissingLength
            | (some lengthLine, rest2) =>
              match parseUsize lengthLine with
              | none => .errBoxed
              | some length =>
                if USIZE_SIZE ≤ length + 2 then .panicked
                else if rest2.length < length + 2 then
                  .errNotEnoughData (length + 2) rest2.length
                else
                  if rest2.length < length then .panicked
                  else .ok (rest2.take length) := by
            simp [resp_parse_v1]
          rw [hv1]
          simp only [hsl, hnp.2]
          rw [if_neg (by simp only [USIZE_SIZE]; omega),
            if_neg (by omega : ¬ rest.length < n.toNat + 2),
            if_neg (by omega : ¬ rest.length < n.toNat), hb2]
      · rw [if_neg h36] at h
        simp at h

/-- Witness for C10 on `"$3\r\nabc\r\n"`. -/
theorem C10_v1_agrees_witness :
    resp_parse_v1 [36, 51, 13, 10, 97, 98, 99, 13, 10] = .ok [97, 98, 99] := by
  refine C10_v1_agrees [36, 51, 13, 10, 97, 98, 99, 13, 10] [97, 98, 99]
    (Or.inr (by decide)) ?_
  intro d line rest hd hsl
  have hd2 : d = [51, 13, 10, 97, 98, 99, 13, 10] := by
    injection hd with _ hd2
    exact hd2.symm
  subst hd2
  rw [show split_line [51, 13, 10, 97, 98, 99, 13, 10]
      = (some [51], [97, 98, 99, 13, 10]) by decide] at hsl
  injection hsl with hsl1 _
  injection hsl1 with hsl1
  rw [← hsl1]
  decide



/-- ASCII bytes are valid UTF-8. -/
theorem validUtf8_ascii (l : List Nat) (h : ∀ b ∈ l, b ≤ 127) :
    validUtf8 l = true := by
  induction l with
  | nil => rfl
  | cons b rest ih =>
    have hb : b ≤ 127 := h b (List.mem_cons_self b rest)
    simp only [validUtf8]
    rw [if_pos (by omega : b ≤ 0x7F)]
    exact ih (fun x hx => h x (List.mem_cons_of_mem b hx))

/-- `takeLine` splits exactly at the first `\n`. -/
theorem takeLine_append (pre post : List Nat) (h : ∀ b ∈ pre, b ≠ 10) :
    takeLine (pre ++ 10 :: post) = (pre ++ [10], post) := by
  induction pre with
  | nil => simp [takeLine]
  | cons b rest ih =>
    have hb : b ≠ 10 := h b (List.mem_cons_self b rest)
    simp only [List.cons_append, takeLine, if_neg hb, List.append_eq]
    rw [ih (fun x hx => h x (List.mem_cons_of_mem b hx))]

/-- A digit byte is not whitespace. -/
theorem isDigitByte_not_ws (b : Nat) (h : isDigitByte b = true) :
    isWsByte b = false := by
  simp only [isDigitByte, Bool.and_eq_true, decide_eq_true_eq] at h
  simp only [isWsByte, Bool.or_eq_false_iff, decide_eq_false_iff_not]
  omega

/-- Trimming a digit line followed by `\r\n` yields the digits. -/
theorem trimBytes_digits (digits : List Nat) (hne : digits ≠ [])
    (hdig : digits.all isDigitByte = true) :
    trimBytes (digits ++ [13, 10]) = digits := by
  simp only [List.all_eq_true] at hdig
  unfold trimBytes
  have h1 : (digits ++ [13, 10]).dropWhile isWsByte = digits ++ [13, 10] := by
    cases digits with
    | nil => exact absurd rfl hne
    | cons d ds =>
      simp only [List.cons_append, List.dropWhile_cons]
      rw [isDigitByte_not_ws d (hdig d (List.mem_cons_self d ds))]
      simp
  rw [h1]
  have h2 : (digits ++ [13, 10]).reverse = 10 :: 13 :: digits.reverse := by
    simp
  rw [h2]
  rw [List.dropWhile_cons, if_pos (by decide : isWsByte 10 = true)]
  rw [List.dropWhile_cons, if_pos (by decide : isWsByte 13 = true)]
  cases hrev : digits.reverse with
  | nil => exact absurd (by simpa using congrArg List.reverse hrev) hne
  | cons d2 ds2 =>
    have hd2 : d2 ∈ digits := by
      rw [← List.mem_reverse, hrev]
      exact List.mem_cons_self d2 ds2
    rw [List.dropWhile_cons,
      if_neg (by simp [isDigitByte_not_ws d2 (hdig d2 hd2)])]
    rw [← hrev, List.reverse_reverse]

/-- An all-digit line parses as `usize` to its decimal value. -/
theorem parseUsize_digits (digits : List Nat) (hne : digits ≠ [])
    (hdig : digits.all isDigitByte = true)
    (hrange : digitsToNat digits < USIZE_SIZE) :
    parseUsize digits = some (digitsToNat digits) := by
  cases digits with
  | nil => exact absurd rfl hne
  | cons d ds =>
    have hd : isDigitByte d = true := by
      simp only [List.all_eq_true] at hdig
      exact hdig d (List.mem_cons_self d ds)
    have hd43 : d ≠ 43 := by
      simp only [isDigitByte, Bool.and_eq_true, decide_eq_true_eq] at hd
      omega
    simp only [parseUsize]
    rw [if_neg hd43]
    unfold parseUsizeCore
    rw [if_neg (by simp [hdig])]
    rw [if_pos hrange]

/-- `read_line` on a digit line: consumes through the `\n`, returns the
line (valid ASCII, hence valid UTF-8) and the remaining source. -/
theorem read_line_digit_line (digits post : List Nat)
    (hdig : digits.all isDigitByte = true) :
    read_line (digits ++ [13, 10] ++ post) = some (digits ++ [13, 10], post) := by
  simp only [List.all_eq_true] at hdig
  have hdig127 : ∀ b ∈ digits, b ≤ 127 := by
    intro b hb
    have := hdig b hb
    simp only [isDigitByte, Bool.and_eq_true, decide_eq_true_eq] at this
    omega
  have hpre : ∀ b ∈ digits ++ [13], b ≠ 10 := by
    intro b hb
    rcases List.mem_append.mp hb with hb | hb
    · have := hdig127 b hb
      have h2 := hdig b hb
      simp only [isDigitByte, Bool.and_eq_true, decide_eq_true_eq] at h2
      omega
    · have : b = 13 := by simpa using hb
      omega
  have hform : digits ++ [13, 10] ++ post = (digits ++ [13]) ++ 10 :: post := by
    simp
  have htl : takeLine (digits ++ [13, 10] ++ post) = (digits ++ [13, 10], post) := by
    rw [hform, takeLine_append (digits ++ [13]) post hpre]
    simp
  have hutf : validUtf8 (digits ++ [13, 10]) = true := by
    refine validUtf8_ascii _ ?_
    intro b hb
    rcases List.mem_append.mp hb with hb | hb
    · exact hdig127 b hb
    · have : b = 13 ∨ b = 10 := by simpa using hb
      omega
  simp only [read_line, htl, hutf]
  rfl


/-- C8: on a source that supplies `$`, a digit length line decoding to
`n`, then at least `n + 2` bytes, the streaming adapter reads exactly
the `n` payload bytes, discards exactly the two trailing bytes (their
values are irrelevant and nothing further is consumed), and returns
the payload as an owned string when it is well-formed UTF-8, a decode
failure otherwise; a source that ends before supplying `n + 2` bytes
after the length line yields an I/O error. -/
theorem C8_streaming_bulk (digits payload rest2 : List Nat) (t1 t2 : Nat)
    (n : Nat) (hne : digits ≠ []) (hdig : digits.all isDigitByte = true)
    (hn : digitsToNat digits = n) (hrange : n < USIZE_SIZE)
    (hplen : payload.length = n) :
    (resp_parse_stream
        (36 :: (digits ++ [13, 10] ++ (payload ++ t1 :: t2 :: rest2)))
      = if validUtf8 payload then .ok payload else .decodeError) ∧
    (∀ short : List Nat, short.length < n + 2 →
      resp_parse_stream (36 :: (digits ++ [13, 10] ++ short)) = .ioError) := by
  subst hn
  have htrim := trimBytes_digits digits hne hdig
  have hpu := parseUsize_digits digits hne hdig hrange
  constructor
  · have hrl := read_line_digit_line digits (payload ++ t1 :: t2 :: rest2) hdig
    have hentry : resp_parse_stream
        (36 :: (digits ++ [13, 10] ++ (payload ++ t1 :: t2 :: rest2)))
        = stream_parse_bulk_string (digits ++ [13, 10] ++ (payload ++ t1 :: t2 :: rest2)) := by
      simp [resp_parse_stream]
    rw [hentry]
    simp only [stream_parse_bulk_string, hrl, htrim, hpu]
    rw [if_neg (by simp only [List.length_append, List.length_cons]; omega)]
    rw [List.take_left' hplen, List.drop_left' hplen]
    rw [if_neg (by simp)]
  · intro short hshort
    have hrl := read_line_digit_line digits short hdig
    have hentry : resp_parse_stream (36 :: (digits ++ [13, 10] ++ short))
        = stream_parse_bulk_string (digits ++ [13, 10] ++ short) := by
      simp [resp_parse_stream]
    rw [hentry]
    simp only [stream_parse_bulk_string, hrl, htrim, hpu]
    by_cases hlt : short.length < digitsToNat digits
    · rw [if_pos hlt]
    · rw [if_neg hlt]
      rw [if_pos (by simp only [List.length_drop]; omega)]

/-- Witness for C8 on the source `"$3\r\nabc\r\n"`. -/
theorem C8_streaming_bulk_witness :
    resp_parse_stream [36, 51, 13, 10, 97, 98, 99, 13, 10] = .ok [97, 98, 99] := by
  have h := (C8_streaming_bulk [51] [97, 98, 99] [] 13 10 3 (by decide) (by decide)
    (by decide) (by decide) (by decide)).1
  have hv : validUtf8 [97, 98, 99] = true := by
    simp [validUtf8, contCheck]
  rw [hv] at h
  simpa using h


end Resp
